import Mathlib

/-!
Shallow embedding of the jbromley/raytracer core (Rust) and proofs about it.

Floating-point (f64) arithmetic is modelled by the real numbers; the value
f64::INFINITY, used as the initial upper search bound for ray hits, is
modelled by the top element of WithTop Real.  Division follows the Lean
convention x / 0 = 0 where the Rust code would produce NaN or infinity;
no claim below depends on that corner.
-/

set_option linter.unusedVariables false

namespace Raytracer

noncomputable section

/-- Embeds struct Vector from src/vec.rs: three f64 components. -/
structure Vector where
  x : ℝ
  y : ℝ
  z : ℝ

namespace Vector

/-- Embeds Vector::ORIGIN from src/vec.rs. -/
def ORIGIN : Vector := ⟨0, 0, 0⟩

/-- Embeds impl Add for Vector (componentwise). -/
def add (v w : Vector) : Vector := ⟨v.x + w.x, v.y + w.y, v.z + w.z⟩

/-- Embeds impl Sub for Vector (componentwise). -/
def sub (v w : Vector) : Vector := ⟨v.x - w.x, v.y - w.y, v.z - w.z⟩

/-- Embeds impl Neg for Vector (componentwise). -/
def neg (v : Vector) : Vector := ⟨-v.x, -v.y, -v.z⟩

instance : Add Vector := ⟨Vector.add⟩
instance : Sub Vector := ⟨Vector.sub⟩
instance : Neg Vector := ⟨Vector.neg⟩

/-- Embeds impl Mul of f64 for Vector and impl Mul of Vector for f64
(both scale componentwise). -/
def mulScalar (v : Vector) (k : ℝ) : Vector := ⟨v.x * k, v.y * k, v.z * k⟩

/-- Embeds impl Div of f64 for Vector (componentwise division by a scalar). -/
def divScalar (v : Vector) (k : ℝ) : Vector := ⟨v.x / k, v.y / k, v.z / k⟩

/-- Embeds impl Mul of Vector for Vector from src/vec.rs, which is the dot
product returning f64. -/
def dot (v w : Vector) : ℝ := v.x * w.x + v.y * w.y + v.z * w.z

/-- Embeds Vector::length_squared from src/vec.rs. -/
def length_squared (v : Vector) : ℝ := v.x * v.x + v.y * v.y + v.z * v.z

/-- Embeds Vector::length from src/vec.rs. -/
noncomputable def length (v : Vector) : ℝ := Real.sqrt v.length_squared

/-- Embeds Vector::normalize from src/vec.rs: the vector divided by its length. -/
noncomputable def normalize (v : Vector) : Vector := v.divScalar v.length

end Vector

/-- Embeds struct Ray from src/ray.rs. -/
structure Ray where
  origin : Vector
  direction : Vector

namespace Ray

/-- Embeds Ray::at from src/ray.rs: origin + direction * t. -/
def at' (r : Ray) (t : ℝ) : Vector := r.origin + r.direction.mulScalar t

end Ray

/-- Embeds struct HitRecord from src/ray.rs. -/
structure HitRecord where
  p : Vector
  n : Vector
  t : ℝ
  front_face : Bool

namespace HitRecord

/-- Embeds HitRecord::from_ray from src/ray.rs: the front-face flag is
direction dot outward_normal less than zero, and the stored normal is the
outward normal, negated when not front-facing. -/
noncomputable def from_ray (r : Ray) (outward_normal : Vector) (t : ℝ) : HitRecord :=
  let front_face := r.direction.dot outward_normal < 0
  { p := r.at' t
    n := if front_face then outward_normal else -outward_normal
    t := t
    front_face := front_face }

end HitRecord

/-- Embeds struct Sphere from src/sphere.rs. -/
structure Sphere where
  center : Vector
  radius : ℝ

namespace Sphere

/-- The local oc of Sphere::hit: ray.origin - self.center. -/
def oc (s : Sphere) (r : Ray) : Vector := r.origin - s.center

/-- The local a of Sphere::hit: ray.direction.length_squared(). -/
def qa (_s : Sphere) (r : Ray) : ℝ := r.direction.length_squared

/-- The local half_b of Sphere::hit: oc dot ray.direction. -/
def half_b (s : Sphere) (r : Ray) : ℝ := (s.oc r).dot r.direction

/-- The local c of Sphere::hit: oc.length_squared() - radius * radius. -/
def qc (s : Sphere) (r : Ray) : ℝ := (s.oc r).length_squared - s.radius * s.radius

/-- The local discriminant of Sphere::hit: half_b * half_b - a * c. -/
def discriminant (s : Sphere) (r : Ray) : ℝ :=
  s.half_b r * s.half_b r - s.qa r * s.qc r

/-- The first root tried by Sphere::hit: (-half_b - sqrt(discriminant)) / a. -/
noncomputable def root1 (s : Sphere) (r : Ray) : ℝ :=
  (-s.half_b r - Real.sqrt (s.discriminant r)) / s.qa r

/-- The second root tried by Sphere::hit: (-half_b + sqrt(discriminant)) / a. -/
noncomputable def root2 (s : Sphere) (r : Ray) : ℝ :=
  (-s.half_b r + Real.sqrt (s.discriminant r)) / s.qa r

/-- Embeds Sphere::hit from src/sphere.rs.  The upper bound t_max is a
WithTop Real so that the caller may pass f64::INFINITY (the top element).
The source iterates over the array of the two roots in order; here that
two-iteration loop is unrolled into the two conditionals. -/
noncomputable def hit (s : Sphere) (r : Ray) (t_min : ℝ) (t_max : WithTop ℝ) :
    Option HitRecord :=
  if 0 ≤ s.discriminant r then
    if t_min < s.root1 r ∧ (s.root1 r : WithTop ℝ) < t_max then
      some (HitRecord.from_ray r ((r.at' (s.root1 r) - s.center).divScalar s.radius)
        (s.root1 r))
    else if t_min < s.root2 r ∧ (s.root2 r : WithTop ℝ) < t_max then
      some (HitRecord.from_ray r ((r.at' (s.root2 r) - s.center).divScalar s.radius)
        (s.root2 r))
    else none
  else none

end Sphere

/-- The unit sphere at the origin, the sphere of the unit test in
src/sphere.rs. -/
def sphereEx : Sphere := ⟨⟨0, 0, 0⟩, 1⟩

/-- The ray of the unit test in src/sphere.rs: origin (0,0,-5),
direction (0,0,1). -/
def rayEx : Ray := ⟨⟨0, 0, -5⟩, ⟨0, 0, 1⟩⟩

/-- A ray tangent to sphereEx: origin (1,0,-5), direction (0,0,1); its
discriminant against sphereEx is zero. -/
def rayTangent : Ray := ⟨⟨1, 0, -5⟩, ⟨0, 0, 1⟩⟩

/-- A horizontal ray from the origin along the x axis; its normalized
direction has y component zero. -/
def rayHoriz : Ray := ⟨⟨0, 0, 0⟩, ⟨1, 0, 0⟩⟩

/-- Embeds the loop of hit_world from src/main.rs: the accumulator closest is
the current upper search bound (initially t_max) and hit_record the best hit
so far; each accepted hit shrinks closest to its t. -/
def hitWorldAux (r : Ray) (t_min : ℝ) :
    List Sphere → WithTop ℝ → Option HitRecord → Option HitRecord
  | [], _, acc => acc
  | s :: rest, closest, acc =>
    match s.hit r t_min closest with
    | some h => hitWorldAux r t_min rest (h.t : WithTop ℝ) (some h)
    | none => hitWorldAux r t_min rest closest acc

/-- Embeds hit_world from src/main.rs. -/
def hit_world (world : List Sphere) (r : Ray) (t_min : ℝ) (t_max : WithTop ℝ) :
    Option HitRecord :=
  hitWorldAux r t_min world t_max none

end

/-- Embeds struct Color from src/color.rs: three u8 channels, modelled as
natural numbers; Color.valid states the u8 range invariant. -/
structure Color where
  r : ℕ
  g : ℕ
  b : ℕ
deriving DecidableEq

namespace Color

/-- The u8 range invariant of the three channels. -/
def valid (c : Color) : Prop := c.r ≤ 255 ∧ c.g ≤ 255 ∧ c.b ≤ 255

instance (c : Color) : Decidable c.valid := by unfold valid; infer_instance

/-- Embeds Color::black from src/color.rs. -/
def black : Color := ⟨0, 0, 0⟩

/-- Embeds Color::white from src/color.rs. -/
def white : Color := ⟨255, 255, 255⟩

/-- Modelled from the spec: the associated constant Color::BLACK used by
src/main.rs and src/image.rs is not in src/src/color.rs; the spec and the
function Color::black pin it to the zero color. -/
def BLACK : Color := black

/-- Modelled from the spec: the associated constant Color::WHITE used by
src/main.rs is not in src/src/color.rs; the spec (white endpoint of the
background blend) and the function Color::white pin it to (255,255,255). -/
def WHITE : Color := white

/-- Modelled from the spec: the associated constant Color::BACKGROUND, the
fixed sky-blue background of the gradient branch of ray_color, is not in
src/src/color.rs.  Taken as the conventional sky blue obtained from
Color::from_float(0.5, 0.7, 1.0), namely (127, 178, 255). -/
def BACKGROUND : Color := ⟨127, 178, 255⟩

end Color

/-- Models u8::checked_add for channel values (operands at most 255):
some of the sum when it fits in a byte, none on overflow. -/
def u8_checked_add (val1 val2 : ℕ) : Option ℕ :=
  if val1 + val2 ≤ 255 then some (val1 + val2) else none

/-- Embeds add_no_overflow from src/color.rs: checked addition, saturating
to u8::MAX on overflow. -/
def add_no_overflow (val1 val2 : ℕ) : ℕ :=
  match u8_checked_add val1 val2 with
  | some v => v
  | none => 255

/-- Embeds impl Add for Color from src/color.rs: channelwise add_no_overflow. -/
def Color.add (c1 c2 : Color) : Color :=
  ⟨add_no_overflow c1.r c2.r, add_no_overflow c1.g c2.g, add_no_overflow c1.b c2.b⟩

instance : Add Color := ⟨Color.add⟩

/-- Embeds the generic clamp from src/color.rs. -/
def clamp {α : Type} [LinearOrder α] (val mn mx : α) : α :=
  if val < mn then mn else if mx < val then mx else val

noncomputable section

/-- Models the Rust cast expression of an f64 value to u8: truncation toward
zero with saturation at the ends of the byte range.  All uses in the source
apply it to clamped, hence nonnegative and at most 255, values. -/
def f64_as_u8 (x : ℝ) : ℕ := min 255 (Int.toNat ⌊x⌋)

/-- Embeds impl Mul of f64 for Color from src/color.rs: each channel is the
product clamped into the byte range and cast to u8. -/
def Color.mulScalar (c : Color) (other : ℝ) : Color :=
  ⟨f64_as_u8 (clamp ((c.r : ℝ) * other) 0 255),
   f64_as_u8 (clamp ((c.g : ℝ) * other) 0 255),
   f64_as_u8 (clamp ((c.b : ℝ) * other) 0 255)⟩

/-- Embeds impl Mul of Color for f64 from src/color.rs (scalar on the left). -/
def Color.scalarMul (k : ℝ) (c : Color) : Color :=
  ⟨f64_as_u8 (clamp (k * (c.r : ℝ)) 0 255),
   f64_as_u8 (clamp (k * (c.g : ℝ)) 0 255),
   f64_as_u8 (clamp (k * (c.b : ℝ)) 0 255)⟩

/-- Embeds Color::lerp from src/color.rs.  The out-of-range panic is
modelled by none; otherwise the result is
(1 - t) * start_color + t * end_color. -/
def Color.lerp (start_color end_color : Color) (t : ℝ) : Option Color :=
  if t < 0 ∨ 1 < t then none
  else some (Color.scalarMul (1 - t) start_color + Color.scalarMul t end_color)

/-- Embeds ray_color from src/main.rs.  The call to the external sampling
primitive Vector::random_in_hemisphere is modelled by the oracle samp,
indexed by the remaining depth of the call that draws it; panics reaching
this function (from Color::lerp) are propagated as none. -/
def ray_color (samp : ℕ → Vector → Vector) : Ray → List Sphere → ℕ → Option Color
  | _, _, 0 => some Color.BLACK
  | r, world, d + 1 =>
    match hit_world world r 0.001 ⊤ with
    | some hitrec =>
      let target := hitrec.p + samp d hitrec.n
      (ray_color samp (Ray.mk hitrec.p (target - hitrec.p)) world d).map
        (fun c => Color.scalarMul 0.5 c)
    | none =>
      let unit_dir := r.direction.normalize
      let t := 0.5 * (unit_dir.y + 1)
      Color.lerp Color.WHITE Color.BACKGROUND t

end

/-- Embeds struct ImagePpm from src/image.rs: the framebuffer, with the
pixel vector modelled as a list indexed by width * y + x. -/
structure ImagePpm where
  width : ℕ
  height : ℕ
  data : List Color

namespace ImagePpm

/-- Embeds ImagePpm::new from src/image.rs. -/
def new (w h : ℕ) : ImagePpm := ⟨w, h, List.replicate (w * h) Color.BLACK⟩

/-- Embeds ImagePpm::set_pixel from src/image.rs; the out-of-range panic is
modelled by none. -/
def set_pixel (img : ImagePpm) (x y : ℕ) (c : Color) : Option ImagePpm :=
  if img.width - 1 < x ∨ img.height - 1 < y then none
  else some { img with data := img.data.set (img.width * y + x) c }

/-- Embeds ImagePpm::get_pixel from src/image.rs; the out-of-range panic
and an out-of-range vector index are modelled by none. -/
def get_pixel (img : ImagePpm) (x y : ℕ) : Option Color :=
  if img.width - 1 < x ∨ img.height - 1 < y then none
  else img.data.get? (img.width * y + x)

/-- Embeds the header emission of ImagePpm::write from src/image.rs:
the magic token, the dimensions and the maximum channel value. -/
def write_header (img : ImagePpm) : String :=
  "P3\n" ++ toString img.width ++ " " ++ toString img.height ++ "\n255\n"

/-- Embeds the pixel loops of ImagePpm::write from src/image.rs: the outer
loop is for y in (0..height - 1).rev(), the inner for x in 0..width, and one
pixel record is emitted per iteration.  This function lists the (x, y)
coordinates of the emitted records in emission order. -/
def write_coords (img : ImagePpm) : List (ℕ × ℕ) :=
  ((List.range (img.height - 1)).reverse).flatMap
    (fun y => (List.range img.width).map (fun x => (x, y)))

end ImagePpm

/-- Embeds the work-distribution loops of main from src/main.rs: one unit of
work per row y in 0..height, and inside each unit one (x, y, color) tuple is
sent on the channel for each x in 0..width.  This function lists the (x, y)
coordinates of all emitted tuples, row by row. -/
def render_coords (width height : ℕ) : List (ℕ × ℕ) :=
  (List.range height).flatMap (fun y => (List.range width).map (fun x => (x, y)))

/-- Embeds struct Config from src/config.rs; the u32 and u16 fields are
modelled as naturals, with the type bounds enforced by the argument parser. -/
structure Config where
  width : ℕ
  height : ℕ
  samples : ℕ
  max_depth : ℕ
  output : String
  help : Bool
deriving DecidableEq

namespace Config

/-- Embeds Config::need_help from src/config.rs. -/
def need_help : Config := ⟨0, 0, 0, 0, "", true⟩

/-- Embeds impl Default for Config from src/config.rs:
Config::new(1920, 1080, 64, 32, empty output), help false. -/
def defaultConfig : Config := ⟨1920, 1080, 64, 32, "", false⟩

end Config

/-- Helper for rust_parse_uint: consumes ASCII digits, accumulating the
value; any non-digit character is an error. -/
def parseDigits : List Char → ℕ → Option ℕ
  | [], acc => some acc
  | ch :: rest, acc =>
    if ch.isDigit then parseDigits rest (10 * acc + (ch.toNat - 48)) else none

/-- Models str::parse for the unsigned integer types used by
Config::parse_args: an optional leading plus sign, then one or more ASCII
digits, with the value at most the maximum of the target type; anything
else is an error (none). -/
def rust_parse_uint (maxVal : ℕ) (s : String) : Option ℕ :=
  let cs := s.toList
  let cs := if cs.head? = some '+' then cs.tail else cs
  match cs with
  | [] => none
  | _ =>
    match parseDigits cs 0 with
    | some v => if v ≤ maxVal then some v else none
    | none => none

/-- Models token.parse with target type u32. -/
def parse_u32 (s : String) : Option ℕ := rust_parse_uint (2 ^ 32 - 1) s

/-- Models token.parse with target type u16. -/
def parse_u16 (s : String) : Option ℕ := rust_parse_uint (2 ^ 16 - 1) s

namespace Config

/-- Embeds the argument loop of Config::parse_args from src/config.rs.
The iterator is the remaining argument list; the two-token steps of the
source (option followed by its value) appear as the patterns with at least
two list elements, and a trailing option with no value as the one-element
patterns. -/
def parse_loop : List String → Config → Except String Config
  | [], cfg => if cfg.output = "" then .error "no output file specified" else .ok cfg
  | [arg], cfg =>
    if arg = "-w" then .error "no width provided"
    else if arg = "-h" then .error "no height provided"
    else if arg = "-s" then .error "no number of samples provided"
    else if arg = "-d" then .error "no maximum depth provided"
    else if arg = "--help" then .ok Config.need_help
    else parse_loop [] { cfg with output := arg }
  | arg :: tok :: rest, cfg =>
    if arg = "-w" then
      match parse_u32 tok with
      | some w => parse_loop rest { cfg with width := w }
      | none => .error "invalid width"
    else if arg = "-h" then
      match parse_u32 tok with
      | some h => parse_loop rest { cfg with height := h }
      | none => .error "invalid height"
    else if arg = "-s" then
      match parse_u16 tok with
      | some s => parse_loop rest { cfg with samples := s }
      | none => .error "invalid number of samples"
    else if arg = "-d" then
      match parse_u16 tok with
      | some md => parse_loop rest { cfg with max_depth := md }
      | none => .error "invalid maximum depth"
    else if arg = "--help" then .ok Config.need_help
    else parse_loop (tok :: rest) { cfg with output := arg }

/-- Embeds Config::parse_args from src/config.rs: skip the program name,
then run the argument loop starting from the default configuration. -/
def parse_args (args : List String) : Except String Config :=
  parse_loop (args.drop 1) Config.defaultConfig

end Config

/-- Embeds the progress period of main from src/main.rs:
cfg.width * cfg.height / 50 in u32 arithmetic (the truncating division of
Rust is the floor division of the naturals). -/
def progress_period (width height : ℕ) : ℕ := width * height / 50

/-- Embeds the per-pixel progress computation of the aggregation loop of
main from src/main.rs: num_pixels % progress_period == 0 decides whether a
marker is printed.  The remainder operator of Rust panics when the divisor
is zero; the panic is modelled by none. -/
def progress_tick (period num_pixels : ℕ) : Option Bool :=
  if period = 0 then none else some (num_pixels % period == 0)

/-! Helper lemmas about the embedded operations. -/

theorem Vector.add_eq (v w : Vector) :
    v + w = ⟨v.x + w.x, v.y + w.y, v.z + w.z⟩ := rfl

theorem Vector.sub_eq (v w : Vector) :
    v - w = ⟨v.x - w.x, v.y - w.y, v.z - w.z⟩ := rfl

theorem Vector.neg_eq (v : Vector) : -v = ⟨-v.x, -v.y, -v.z⟩ := rfl

theorem Vector.dot_comm (v w : Vector) : v.dot w = w.dot v := by
  unfold Vector.dot; ring

theorem Vector.neg_dot (v w : Vector) : (-v).dot w = -(v.dot w) := by
  rw [Vector.neg_eq]; unfold Vector.dot; ring

/-- Claim C4: ray_color called with zero remaining depth returns black,
for every sampling oracle, ray and scene. -/
theorem ray_color_depth_zero (samp : ℕ → Vector → Vector) (r : Ray)
    (world : List Sphere) : ray_color samp r world 0 = some Color.BLACK := rfl

/-- Claim C6, evaluation of the code at the failing input: on the 2 x 2
framebuffer the pixel loop of ImagePpm::write emits only the two records of
row 0; row height - 1 = 1 is never emitted, and only width * (height - 1) = 2
of the width * height = 4 claimed records appear. -/
theorem write_coords_misses_top_row :
    (ImagePpm.new 2 2).write_coords = [(0, 0), (1, 0)] ∧
    (ImagePpm.new 2 2).write_header = "P3\n2 2\n255\n" ∧
    ((ImagePpm.new 2 2).write_coords.length = 2 * 2 → False) := by decide

/-- Claim C7: for positive width and height, the (x, y) coordinates of the
tuples emitted by the units of work and drained by the aggregator are
W * H in number, pairwise distinct, and exactly the set of pixel
coordinates below the bounds. -/
theorem render_coords_cover (W H : ℕ) (hW : 0 < W) (hH : 0 < H) :
    (render_coords W H).length = W * H ∧
    (render_coords W H).Nodup ∧
    ∀ p : ℕ × ℕ, p ∈ render_coords W H ↔ p.1 < W ∧ p.2 < H := by
  refine ⟨?_, ?_, ?_⟩
  · simp [render_coords, Function.comp_def, List.map_const', List.sum_replicate,
      smul_eq_mul, Nat.mul_comm]
  · rw [render_coords, List.nodup_flatMap]
    constructor
    · intro y _
      exact (List.nodup_range W).map (fun a b h => (Prod.ext_iff.mp h).1)
    · have hpw : (List.range H).Pairwise (· < ·) := List.pairwise_lt_range H
      refine hpw.imp ?_
      intro y1 y2 hlt
      simp only [Function.onFun]
      intro p hp1 hp2
      simp only [List.mem_map] at hp1 hp2
      obtain ⟨x1, _, rfl⟩ := hp1
      obtain ⟨x2, _, h2⟩ := hp2
      have hy : y2 = y1 := (Prod.ext_iff.mp h2).2
      omega
  · intro p
    simp only [render_coords, List.mem_flatMap, List.mem_map, List.mem_range]
    constructor
    · rintro ⟨y, hy, x, hx, rfl⟩
      exact ⟨hx, hy⟩
    · rintro ⟨h1, h2⟩
      exact ⟨p.2, h2, p.1, h1, rfl⟩

/-- Witness for render_coords_cover at width 2, height 3. -/
theorem render_coords_cover_witness :
    0 < 2 ∧ 0 < 3 ∧
    ((render_coords 2 3).length = 2 * 3 ∧
     (render_coords 2 3).Nodup ∧
     ∀ p : ℕ × ℕ, p ∈ render_coords 2 3 ↔ p.1 < 2 ∧ p.2 < 3) :=
  ⟨by decide, by decide, render_coords_cover 2 3 (by decide) (by decide)⟩

/-- Claim C9, evaluation of the code at the failing input: for the valid
one-by-one configuration the progress period is width * height / 50 = 0 and
the marker computation of the aggregation loop divides by zero (a panic,
modelled by none) on the first received pixel. -/
theorem progress_tick_div_by_zero :
    progress_period 1 1 = 0 ∧ progress_tick (progress_period 1 1) 1 = none := by
  decide

theorem add_no_overflow_eq (a b : ℕ) : add_no_overflow a b = min 255 (a + b) := by
  unfold add_no_overflow u8_checked_add
  rcases le_or_lt (a + b) 255 with h | h
  · rw [if_pos h]
    show a + b = min 255 (a + b)
    omega
  · rw [if_neg (by omega)]
    show 255 = min 255 (a + b)
    omega

theorem clamp_eq_max_min {α : Type} [LinearOrder α] (val mn mx : α) (h : mn ≤ mx) :
    clamp val mn mx = max mn (min mx val) := by
  unfold clamp
  split_ifs with h1 h2
  · rw [min_eq_right (le_of_lt (lt_of_lt_of_le h1 h)), max_eq_left (le_of_lt h1)]
  · rw [min_eq_left (le_of_lt h2), max_eq_right h]
  · rw [min_eq_right (le_of_not_lt h2), max_eq_right (le_of_not_lt h1)]

theorem f64_as_u8_clamp (x : ℝ) :
    f64_as_u8 (clamp x 0 255) = (⌊max 0 (min 255 x)⌋).toNat := by
  rw [clamp_eq_max_min x (0 : ℝ) 255 (by norm_num), f64_as_u8]
  refine min_eq_right ?_
  have hle : (max 0 (min 255 x) : ℝ) ≤ 255 :=
    max_le (by norm_num) (min_le_left _ _)
  have : (⌊max 0 (min 255 x)⌋ : ℤ) ≤ 255 := by
    have := Int.floor_le_floor hle
    simpa using this
  omega

/-- Claim C10: color channel arithmetic saturates and never wraps: addition
is channelwise min(255, sum of the channels), scalar multiplication in
either operand order is the product clamped into the byte range and then
truncated, and every resulting channel is at most 255. -/
theorem color_arith_saturates (c1 c2 c : Color) (s : ℝ)
    (h1 : c1.valid) (h2 : c2.valid) :
    ((c1 + c2).r = min 255 (c1.r + c2.r) ∧
     (c1 + c2).g = min 255 (c1.g + c2.g) ∧
     (c1 + c2).b = min 255 (c1.b + c2.b)) ∧
    ((c.mulScalar s).r = (⌊max 0 (min 255 ((c.r : ℝ) * s))⌋).toNat ∧
     (c.mulScalar s).g = (⌊max 0 (min 255 ((c.g : ℝ) * s))⌋).toNat ∧
     (c.mulScalar s).b = (⌊max 0 (min 255 ((c.b : ℝ) * s))⌋).toNat) ∧
    Color.scalarMul s c = c.mulScalar s ∧
    ((c.mulScalar s).r ≤ 255 ∧ (c.mulScalar s).g ≤ 255 ∧ (c.mulScalar s).b ≤ 255) := by
  refine ⟨?_, ?_, ?_, ?_⟩
  · show (Color.add c1 c2).r = _ ∧ (Color.add c1 c2).g = _ ∧ (Color.add c1 c2).b = _
    simp only [Color.add]
    exact ⟨add_no_overflow_eq _ _, add_no_overflow_eq _ _, add_no_overflow_eq _ _⟩
  · exact ⟨f64_as_u8_clamp _, f64_as_u8_clamp _, f64_as_u8_clamp _⟩
  · unfold Color.scalarMul Color.mulScalar
    simp [mul_comm]
  · unfold Color.mulScalar f64_as_u8
    exact ⟨Nat.min_le_left _ _, Nat.min_le_left _ _, Nat.min_le_left _ _⟩

/-- Witness for color_arith_saturates at concrete colors and scalar 2. -/
theorem color_arith_saturates_witness :
    (Color.valid ⟨128, 128, 128⟩) ∧ (Color.valid ⟨16, 32, 64⟩) ∧
    (((⟨128, 128, 128⟩ + ⟨16, 32, 64⟩ : Color).r = min 255 (128 + 16) ∧
      (⟨128, 128, 128⟩ + ⟨16, 32, 64⟩ : Color).g = min 255 (128 + 32) ∧
      (⟨128, 128, 128⟩ + ⟨16, 32, 64⟩ : Color).b = min 255 (128 + 64)) ∧
     ((Color.mulScalar ⟨16, 32, 64⟩ 2).r = (⌊max 0 (min 255 ((16 : ℝ) * 2))⌋).toNat ∧
      (Color.mulScalar ⟨16, 32, 64⟩ 2).g = (⌊max 0 (min 255 ((32 : ℝ) * 2))⌋).toNat ∧
      (Color.mulScalar ⟨16, 32, 64⟩ 2).b = (⌊max 0 (min 255 ((64 : ℝ) * 2))⌋).toNat) ∧
     Color.scalarMul 2 ⟨16, 32, 64⟩ = Color.mulScalar ⟨16, 32, 64⟩ 2 ∧
     ((Color.mulScalar ⟨16, 32, 64⟩ 2).r ≤ 255 ∧
      (Color.mulScalar ⟨16, 32, 64⟩ 2).g ≤ 255 ∧
      (Color.mulScalar ⟨16, 32, 64⟩ 2).b ≤ 255)) :=
  ⟨by decide, by decide,
   color_arith_saturates ⟨128, 128, 128⟩ ⟨16, 32, 64⟩ ⟨16, 32, 64⟩ 2
     (by decide) (by decide)⟩

theorem Config.parse_loop_ok_shape : ∀ (l : List String) (c0 cfg : Config),
    Config.parse_loop l c0 = .ok cfg → cfg.help = true ∨ cfg.output ≠ "" := by
  intro l c0
  induction l, c0 using Config.parse_loop.induct <;>
    intro cfg h <;>
    rw [Config.parse_loop] at h <;>
    simp_all [Config.need_help] <;>
    (try (cases h; simp [Config.need_help]))

/-- Claim C8 (amended): Config::parse_args validates parseability and
presence only, not positivity: an ok result guarantees that the help flag
is set or the output path is nonempty; width, height and sample count are
only checked to parse as u32 or u16, so zero values are accepted. -/
theorem parse_args_ok_shape (args : List String) (cfg : Config)
    (h : Config.parse_args args = .ok cfg) :
    cfg.help = true ∨ cfg.output ≠ "" :=
  Config.parse_loop_ok_shape _ _ _ h

/-- Witness for parse_args_ok_shape on the argument list with only an
output file. -/
theorem parse_args_ok_shape_witness :
    Config.parse_args ["raytracer", "out.ppm"] =
      .ok ⟨1920, 1080, 64, 32, "out.ppm", false⟩ ∧
    ((⟨1920, 1080, 64, 32, "out.ppm", false⟩ : Config).help = true ∨
     (⟨1920, 1080, 64, 32, "out.ppm", false⟩ : Config).output ≠ "") :=
  ⟨rfl, parse_args_ok_shape ["raytracer", "out.ppm"] _ rfl⟩

/-- Claim C8 counterexample: the argument list -w 0 out.ppm parses
successfully to a configuration with width zero, so an ok result does not
imply a positive width. -/
theorem parse_args_accepts_width_zero :
    Config.parse_args ["raytracer", "-w", "0", "out.ppm"] =
      .ok ⟨0, 1080, 64, 32, "out.ppm", false⟩ ∧ ¬ (0 : ℕ) > 0 :=
  ⟨rfl, by decide⟩

/-- Claim C1: Sphere::hit returns none when the discriminant is negative;
otherwise it considers root1 and then root2 and returns the record of the
first root strictly inside the open search interval, with t equal to that
root and point equal to origin + t * direction; if neither root is strictly
inside, it returns none. -/
theorem sphere_hit_roots (s : Sphere) (r : Ray) (t_min : ℝ) (t_max : WithTop ℝ)
    (hb : (t_min : WithTop ℝ) < t_max) :
    (s.discriminant r < 0 → s.hit r t_min t_max = none) ∧
    (0 ≤ s.discriminant r → t_min < s.root1 r → (s.root1 r : WithTop ℝ) < t_max →
      ∃ hr, s.hit r t_min t_max = some hr ∧ hr.t = s.root1 r ∧
        hr.p = r.origin + r.direction.mulScalar (s.root1 r)) ∧
    (0 ≤ s.discriminant r →
      ¬(t_min < s.root1 r ∧ (s.root1 r : WithTop ℝ) < t_max) →
      t_min < s.root2 r → (s.root2 r : WithTop ℝ) < t_max →
      ∃ hr, s.hit r t_min t_max = some hr ∧ hr.t = s.root2 r ∧
        hr.p = r.origin + r.direction.mulScalar (s.root2 r)) ∧
    (¬(t_min < s.root1 r ∧ (s.root1 r : WithTop ℝ) < t_max) →
      ¬(t_min < s.root2 r ∧ (s.root2 r : WithTop ℝ) < t_max) →
      s.hit r t_min t_max = none) := by
  refine ⟨?_, ?_, ?_, ?_⟩
  · intro hneg
    rw [Sphere.hit, if_neg (not_le.mpr hneg)]
  · intro hd h1 h2
    exact ⟨_, by rw [Sphere.hit, if_pos hd, if_pos ⟨h1, h2⟩], rfl, rfl⟩
  · intro hd hn1 h1 h2
    exact ⟨_, by rw [Sphere.hit, if_pos hd, if_neg hn1, if_pos ⟨h1, h2⟩], rfl, rfl⟩
  · intro hn1 hn2
    by_cases hd : 0 ≤ s.discriminant r
    · rw [Sphere.hit, if_pos hd, if_neg hn1, if_neg hn2]
    · rw [Sphere.hit, if_neg hd]

/-- Witness for sphere_hit_roots on the test sphere and ray with the
interval from 0 to 10. -/
theorem sphere_hit_roots_witness :
    ((0 : ℝ) : WithTop ℝ) < ((10 : ℝ) : WithTop ℝ) ∧
    ((sphereEx.discriminant rayEx < 0 → sphereEx.hit rayEx 0 ((10 : ℝ) : WithTop ℝ) = none) ∧
     (0 ≤ sphereEx.discriminant rayEx → 0 < sphereEx.root1 rayEx →
       ((sphereEx.root1 rayEx : WithTop ℝ) < ((10 : ℝ) : WithTop ℝ)) →
       ∃ hr, sphereEx.hit rayEx 0 ((10 : ℝ) : WithTop ℝ) = some hr ∧
         hr.t = sphereEx.root1 rayEx ∧
         hr.p = rayEx.origin + rayEx.direction.mulScalar (sphereEx.root1 rayEx)) ∧
     (0 ≤ sphereEx.discriminant rayEx →
       ¬(0 < sphereEx.root1 rayEx ∧ (sphereEx.root1 rayEx : WithTop ℝ) < ((10 : ℝ) : WithTop ℝ)) →
       0 < sphereEx.root2 rayEx →
       ((sphereEx.root2 rayEx : WithTop ℝ) < ((10 : ℝ) : WithTop ℝ)) →
       ∃ hr, sphereEx.hit rayEx 0 ((10 : ℝ) : WithTop ℝ) = some hr ∧
         hr.t = sphereEx.root2 rayEx ∧
         hr.p = rayEx.origin + rayEx.direction.mulScalar (sphereEx.root2 rayEx)) ∧
     (¬(0 < sphereEx.root1 rayEx ∧ (sphereEx.root1 rayEx : WithTop ℝ) < ((10 : ℝ) : WithTop ℝ)) →
       ¬(0 < sphereEx.root2 rayEx ∧ (sphereEx.root2 rayEx : WithTop ℝ) < ((10 : ℝ) : WithTop ℝ)) →
       sphereEx.hit rayEx 0 ((10 : ℝ) : WithTop ℝ) = none)) :=
  ⟨WithTop.coe_lt_coe.mpr (by norm_num),
   sphere_hit_roots sphereEx rayEx 0 ((10 : ℝ) : WithTop ℝ)
     (WithTop.coe_lt_coe.mpr (by norm_num))⟩

theorem HitRecord.from_ray_t (r : Ray) (out : Vector) (t : ℝ) :
    (HitRecord.from_ray r out t).t = t := rfl

theorem HitRecord.from_ray_p (r : Ray) (out : Vector) (t : ℝ) :
    (HitRecord.from_ray r out t).p = r.at' t := rfl

theorem HitRecord.from_ray_front (r : Ray) (out : Vector) (t : ℝ) :
    (HitRecord.from_ray r out t).front_face = true ↔ r.direction.dot out < 0 := by
  simp [HitRecord.from_ray]

theorem HitRecord.from_ray_n (r : Ray) (out : Vector) (t : ℝ) :
    (HitRecord.from_ray r out t).n =
      if r.direction.dot out < 0 then out else -out := rfl

/-- Inversion for Sphere.hit: a returned record comes from one of the two
roots, strictly inside the interval, through HitRecord.from_ray with the
outward normal (point - center) / radius. -/
theorem Sphere.hit_some_elim {s : Sphere} {r : Ray} {t_min : ℝ}
    {t_max : WithTop ℝ} {hr : HitRecord} (h : s.hit r t_min t_max = some hr) :
    ∃ root, (root = s.root1 r ∨ root = s.root2 r) ∧ t_min < root ∧
      (root : WithTop ℝ) < t_max ∧
      hr = HitRecord.from_ray r ((r.at' root - s.center).divScalar s.radius) root := by
  rw [Sphere.hit] at h
  split_ifs at h with hd h1 h2
  · exact ⟨s.root1 r, Or.inl rfl, h1.1, h1.2, (Option.some.inj h).symm⟩
  · exact ⟨s.root2 r, Or.inr rfl, h2.1, h2.2, (Option.some.inj h).symm⟩

/-- Claim C3 (amended): every record returned by the intersection test has
its front-face flag equal to the sign test direction dot outward normal
less than zero, keeps the outward normal exactly when front-facing and its
negation otherwise, and its stored normal n satisfies n dot direction
at most zero, strictly negative whenever the hit is front-facing (equality
occurs only for tangential back-face records, where the dot product is
zero). -/
theorem hit_record_opposes (s : Sphere) (r : Ray) (t_min : ℝ)
    (t_max : WithTop ℝ) (hr : HitRecord)
    (h : s.hit r t_min t_max = some hr) :
    (hr.front_face = true ↔
      r.direction.dot ((hr.p - s.center).divScalar s.radius) < 0) ∧
    (hr.front_face = true → hr.n = (hr.p - s.center).divScalar s.radius) ∧
    (hr.front_face = false → hr.n = -((hr.p - s.center).divScalar s.radius)) ∧
    hr.n.dot r.direction ≤ 0 ∧
    (hr.front_face = true → hr.n.dot r.direction < 0) := by
  obtain ⟨root, _, _, _, rfl⟩ := Sphere.hit_some_elim h
  rw [HitRecord.from_ray_p]
  refine ⟨HitRecord.from_ray_front r _ root, ?_, ?_, ?_, ?_⟩
  · intro hf
    rw [HitRecord.from_ray_n,
      if_pos ((HitRecord.from_ray_front r _ root).mp hf)]
  · intro hf
    have hnot : ¬ r.direction.dot ((r.at' root - s.center).divScalar s.radius) < 0 := by
      intro hlt
      rw [(HitRecord.from_ray_front r _ root).mpr hlt] at hf
      exact Bool.noConfusion hf
    rw [HitRecord.from_ray_n, if_neg hnot]
  · rw [HitRecord.from_ray_n]
    by_cases hlt : r.direction.dot ((r.at' root - s.center).divScalar s.radius) < 0
    · rw [if_pos hlt, Vector.dot_comm]
      exact le_of_lt hlt
    · rw [if_neg hlt, Vector.neg_dot, Vector.dot_comm]
      simpa using le_of_not_lt hlt
  · intro hf
    have hlt := (HitRecord.from_ray_front r _ root).mp hf
    rw [HitRecord.from_ray_n, if_pos hlt, Vector.dot_comm]
    exact hlt

/-- Witness for hit_record_opposes on the test sphere and ray: the hit at
t = 4 with point (0,0,-1), outward normal kept, front face true. -/
theorem hit_record_opposes_witness :
    sphereEx.hit rayEx 0 ((10 : ℝ) : WithTop ℝ) =
      some ⟨⟨0, 0, -1⟩, ⟨0, 0, -1⟩, 4, true⟩ ∧
    (((⟨⟨0, 0, -1⟩, ⟨0, 0, -1⟩, 4, true⟩ : HitRecord).front_face = true ↔
      rayEx.direction.dot
        (((⟨⟨0, 0, -1⟩, ⟨0, 0, -1⟩, 4, true⟩ : HitRecord).p - sphereEx.center).divScalar
          sphereEx.radius) < 0) ∧
     ((⟨⟨0, 0, -1⟩, ⟨0, 0, -1⟩, 4, true⟩ : HitRecord).front_face = true →
      (⟨⟨0, 0, -1⟩, ⟨0, 0, -1⟩, 4, true⟩ : HitRecord).n =
        (((⟨⟨0, 0, -1⟩, ⟨0, 0, -1⟩, 4, true⟩ : HitRecord).p - sphereEx.center).divScalar
          sphereEx.radius)) ∧
     ((⟨⟨0, 0, -1⟩, ⟨0, 0, -1⟩, 4, true⟩ : HitRecord).front_face = false →
      (⟨⟨0, 0, -1⟩, ⟨0, 0, -1⟩, 4, true⟩ : HitRecord).n =
        -(((⟨⟨0, 0, -1⟩, ⟨0, 0, -1⟩, 4, true⟩ : HitRecord).p - sphereEx.center).divScalar
          sphereEx.radius)) ∧
     ((⟨⟨0, 0, -1⟩, ⟨0, 0, -1⟩, 4, true⟩ : HitRecord).n.dot rayEx.direction ≤ 0) ∧
     ((⟨⟨0, 0, -1⟩, ⟨0, 0, -1⟩, 4, true⟩ : HitRecord).front_face = true →
      (⟨⟨0, 0, -1⟩, ⟨0, 0, -1⟩, 4, true⟩ : HitRecord).n.dot rayEx.direction < 0)) := by
  have heval : sphereEx.hit rayEx 0 ((10 : ℝ) : WithTop ℝ) =
      some ⟨⟨0, 0, -1⟩, ⟨0, 0, -1⟩, 4, true⟩ := by
    have hd : sphereEx.discriminant rayEx = 1 := by
      norm_num [Sphere.discriminant, Sphere.half_b, Sphere.qa, Sphere.qc,
        Sphere.oc, Vector.dot, Vector.length_squared, Vector.sub_eq,
        sphereEx, rayEx]
    have hr1 : sphereEx.root1 rayEx = 4 := by
      rw [Sphere.root1, hd, Real.sqrt_one]
      norm_num [Sphere.half_b, Sphere.qa, Sphere.oc, Vector.dot,
        Vector.length_squared, Vector.sub_eq, sphereEx, rayEx]
    rw [Sphere.hit, if_pos (by rw [hd]; norm_num),
      if_pos ⟨by rw [hr1]; norm_num, by rw [hr1]; exact WithTop.coe_lt_coe.mpr (by norm_num)⟩]
    rw [hr1]
    simp only [HitRecord.from_ray, Ray.at', Vector.add_eq, Vector.mulScalar,
      Vector.sub_eq, Vector.divScalar, Vector.dot, Vector.neg_eq,
      sphereEx, rayEx]
    norm_num
  exact ⟨heval, hit_record_opposes sphereEx rayEx 0 ((10 : ℝ) : WithTop ℝ) _ heval⟩

/-- Claim C3 counterexample: the tangent ray from (1,0,-5) along (0,0,1)
against the unit sphere produces a hit record (at t = 5, point (1,0,0),
stored normal (-1,0,0), front face false) whose stored normal dotted with
the ray direction is zero, not strictly negative. -/
theorem hit_record_tangent_zero_dot :
    sphereEx.hit rayTangent 0 ((10 : ℝ) : WithTop ℝ) =
      some ⟨⟨1, 0, 0⟩, ⟨-1, 0, 0⟩, 5, false⟩ ∧
    Vector.dot ⟨-1, 0, 0⟩ (rayTangent.direction) = 0 ∧
    ¬ Vector.dot ⟨-1, 0, 0⟩ (rayTangent.direction) < 0 := by
  refine ⟨?_, ?_, ?_⟩
  · have hd : sphereEx.discriminant rayTangent = 0 := by
      norm_num [Sphere.discriminant, Sphere.half_b, Sphere.qa, Sphere.qc,
        Sphere.oc, Vector.dot, Vector.length_squared, Vector.sub_eq,
        sphereEx, rayTangent]
    have hr1 : sphereEx.root1 rayTangent = 5 := by
      rw [Sphere.root1, hd, Real.sqrt_zero]
      norm_num [Sphere.half_b, Sphere.qa, Sphere.oc, Vector.dot,
        Vector.length_squared, Vector.sub_eq, sphereEx, rayTangent]
    rw [Sphere.hit, if_pos (by rw [hd]),
      if_pos ⟨by rw [hr1]; norm_num, by rw [hr1]; exact WithTop.coe_lt_coe.mpr (by norm_num)⟩]
    rw [hr1]
    simp only [HitRecord.from_ray, Ray.at', Vector.add_eq, Vector.mulScalar,
      Vector.sub_eq, Vector.divScalar, Vector.dot, Vector.neg_eq,
      sphereEx, rayTangent]
    norm_num
  · norm_num [Vector.dot, rayTangent]
  · norm_num [Vector.dot, rayTangent]

theorem Vector.length_squared_nonneg (v : Vector) : 0 ≤ v.length_squared := by
  unfold Vector.length_squared
  have hx := mul_self_nonneg v.x
  have hy := mul_self_nonneg v.y
  have hz := mul_self_nonneg v.z
  linarith

theorem Sphere.root1_le_root2 (s : Sphere) (r : Ray) : s.root1 r ≤ s.root2 r := by
  have hq : (0 : ℝ) ≤ s.qa r := Vector.length_squared_nonneg r.direction
  have hsq : (0 : ℝ) ≤ Real.sqrt (s.discriminant r) := Real.sqrt_nonneg _
  rw [Sphere.root1, Sphere.root2]
  rcases eq_or_lt_of_le hq with hq0 | hq0
  · rw [← hq0]
    simp
  · exact (div_le_div_iff_of_pos_right hq0).mpr (by linarith)

theorem Sphere.hit_eq_some_iff {s : Sphere} {r : Ray} {t_min : ℝ}
    {t_max : WithTop ℝ} {hr : HitRecord} :
    s.hit r t_min t_max = some hr ↔
      0 ≤ s.discriminant r ∧
      ((t_min < s.root1 r ∧ (s.root1 r : WithTop ℝ) < t_max ∧
          HitRecord.from_ray r ((r.at' (s.root1 r) - s.center).divScalar s.radius)
            (s.root1 r) = hr) ∨
       (¬(t_min < s.root1 r ∧ (s.root1 r : WithTop ℝ) < t_max) ∧
          t_min < s.root2 r ∧ (s.root2 r : WithTop ℝ) < t_max ∧
          HitRecord.from_ray r ((r.at' (s.root2 r) - s.center).divScalar s.radius)
            (s.root2 r) = hr)) := by
  rw [Sphere.hit]
  split_ifs with hd h1 h2
  · constructor
    · intro h
      exact ⟨hd, Or.inl ⟨h1.1, h1.2, Option.some.inj h⟩⟩
    · rintro ⟨-, ⟨-, -, heq⟩ | ⟨hn1, -⟩⟩
      · rw [heq]
      · exact absurd h1 hn1
  · constructor
    · intro h
      exact ⟨hd, Or.inr ⟨h1, h2.1, h2.2, Option.some.inj h⟩⟩
    · rintro ⟨-, ⟨ha, hb, heq⟩ | ⟨-, -, -, heq⟩⟩
      · exact absurd ⟨ha, hb⟩ h1
      · rw [heq]
  · constructor
    · intro h
      exact absurd h (by simp)
    · rintro ⟨-, ⟨ha, hb, -⟩ | ⟨-, hc, hd2, -⟩⟩
      · exact absurd ⟨ha, hb⟩ h1
      · exact absurd ⟨hc, hd2⟩ h2
  · constructor
    · intro h
      exact absurd h (by simp)
    · rintro ⟨hd2, -⟩
      exact absurd hd2 hd

theorem Sphere.hit_eq_none_iff {s : Sphere} {r : Ray} {t_min : ℝ}
    {t_max : WithTop ℝ} :
    s.hit r t_min t_max = none ↔
      s.discriminant r < 0 ∨
      (¬(t_min < s.root1 r ∧ (s.root1 r : WithTop ℝ) < t_max) ∧
       ¬(t_min < s.root2 r ∧ (s.root2 r : WithTop ℝ) < t_max)) := by
  rw [Sphere.hit]
  split_ifs with hd h1 h2
  · simp [h1, not_lt.mpr hd]
  · simp [h2, not_lt.mpr hd]
  · simp [h1, h2, not_lt.mpr hd]
  · simp [not_le.mp hd]

theorem Sphere.hit_t {s : Sphere} {r : Ray} {t_min : ℝ} {t_max : WithTop ℝ}
    {hr : HitRecord} (h : s.hit r t_min t_max = some hr) :
    t_min < hr.t ∧ (hr.t : WithTop ℝ) < t_max := by
  rcases Sphere.hit_eq_some_iff.mp h with ⟨-, ⟨h1, h2, heq⟩ | ⟨-, h1, h2, heq⟩⟩ <;>
    (rw [← heq]; exact ⟨h1, h2⟩)

theorem Sphere.hit_none_mono {s : Sphere} {r : Ray} {t_min : ℝ}
    {t1 t2 : WithTop ℝ} (h12 : t1 ≤ t2) (h : s.hit r t_min t2 = none) :
    s.hit r t_min t1 = none := by
  rcases Sphere.hit_eq_none_iff.mp h with hd | ⟨hn1, hn2⟩
  · exact Sphere.hit_eq_none_iff.mpr (Or.inl hd)
  · refine Sphere.hit_eq_none_iff.mpr (Or.inr ⟨?_, ?_⟩)
    · rintro ⟨ha, hb⟩
      exact hn1 ⟨ha, lt_of_lt_of_le hb h12⟩
    · rintro ⟨ha, hb⟩
      exact hn2 ⟨ha, lt_of_lt_of_le hb h12⟩

/-- Shrinking the upper search bound: a hit found below a larger bound is
found unchanged below a smaller bound when its parameter still fits, and no
hit is found when it does not (the accepted root is the smallest accepted
one). -/
theorem Sphere.hit_shrink {s : Sphere} {r : Ray} {t_min : ℝ}
    {t1 t2 : WithTop ℝ} (h12 : t1 ≤ t2) {hr : HitRecord}
    (h : s.hit r t_min t2 = some hr) :
    ((hr.t : WithTop ℝ) < t1 → s.hit r t_min t1 = some hr) ∧
    (t1 ≤ (hr.t : WithTop ℝ) → s.hit r t_min t1 = none) := by
  have hroots2 : (s.root1 r : WithTop ℝ) ≤ (s.root2 r : WithTop ℝ) :=
    WithTop.coe_le_coe.mpr (Sphere.root1_le_root2 s r)
  rcases Sphere.hit_eq_some_iff.mp h with ⟨hd, ⟨h1, h2, heq⟩ | ⟨hn1, h1, h2, heq⟩⟩
  · subst heq
    constructor
    · intro hlt
      exact Sphere.hit_eq_some_iff.mpr ⟨hd, Or.inl ⟨h1, hlt, rfl⟩⟩
    · intro hle
      refine Sphere.hit_eq_none_iff.mpr (Or.inr ⟨?_, ?_⟩)
      · rintro ⟨-, hb⟩
        exact absurd hb (not_lt.mpr hle)
      · rintro ⟨-, hb⟩
        exact absurd hb (not_lt.mpr (le_trans hle hroots2))
  · subst heq
    constructor
    · intro hlt
      refine Sphere.hit_eq_some_iff.mpr ⟨hd, Or.inr ⟨?_, h1, hlt, rfl⟩⟩
      rintro ⟨ha, hb⟩
      exact hn1 ⟨ha, lt_of_lt_of_le hb h12⟩
    · intro hle
      refine Sphere.hit_eq_none_iff.mpr (Or.inr ⟨?_, ?_⟩)
      · rintro ⟨ha, hb⟩
        exact hn1 ⟨ha, lt_of_lt_of_le hb h12⟩
      · rintro ⟨-, hb⟩
        exact absurd hb (not_lt.mpr hle)

/-- Growing the upper search bound preserves an existing hit: enlarging the
interval only adds larger candidate roots. -/
theorem Sphere.hit_grow {s : Sphere} {r : Ray} {t_min : ℝ}
    {t1 t2 : WithTop ℝ} (h12 : t1 ≤ t2) {hr : HitRecord}
    (h : s.hit r t_min t1 = some hr) : s.hit r t_min t2 = some hr := by
  have hroots2 : (s.root1 r : WithTop ℝ) ≤ (s.root2 r : WithTop ℝ) :=
    WithTop.coe_le_coe.mpr (Sphere.root1_le_root2 s r)
  rcases Sphere.hit_eq_some_iff.mp h with ⟨hd, ⟨h1, h2, heq⟩ | ⟨hn1, h1, h2, heq⟩⟩
  · exact Sphere.hit_eq_some_iff.mpr ⟨hd, Or.inl ⟨h1, lt_of_lt_of_le h2 h12, heq⟩⟩
  · refine Sphere.hit_eq_some_iff.mpr ⟨hd, Or.inr ⟨?_, h1, lt_of_lt_of_le h2 h12, heq⟩⟩
    rintro ⟨ha, -⟩
    exact hn1 ⟨ha, lt_of_le_of_lt hroots2 h2⟩

/-- The accumulator of the hit_world loop can be eliminated: running with a
current best record returns the result of running with no record when the
latter finds something, and the current best otherwise. -/
theorem hitWorldAux_acc (r : Ray) (t_min : ℝ) :
    ∀ (L : List Sphere) (closest : WithTop ℝ) (h0 : HitRecord),
      hitWorldAux r t_min L closest (some h0) =
        match hitWorldAux r t_min L closest none with
        | none => some h0
        | some hx => some hx := by
  intro L
  induction L with
  | nil =>
    intro closest h0
    rfl
  | cons s rest ih =>
    intro closest h0
    cases hs : s.hit r t_min closest with
    | some h =>
      simp only [hitWorldAux, hs]
      rw [ih]
      cases hrest : hitWorldAux r t_min rest ((h.t : WithTop ℝ)) none <;> simp
    | none =>
      simp only [hitWorldAux, hs]
      exact ih closest h0

/-- One step of hit_world: the head sphere is queried on the full interval;
on a hit, the rest of the scene is searched below that hit's parameter and
may only replace it with a strictly closer record. -/
theorem hit_world_cons (s : Sphere) (rest : List Sphere) (r : Ray)
    (t_min : ℝ) (t_max : WithTop ℝ) :
    hit_world (s :: rest) r t_min t_max =
      match s.hit r t_min t_max with
      | none => hit_world rest r t_min t_max
      | some h =>
        match hit_world rest r t_min (h.t : WithTop ℝ) with
        | none => some h
        | some hx => some hx := by
  cases hs : s.hit r t_min t_max with
  | none => simp only [hit_world, hitWorldAux, hs]
  | some h =>
    simp only [hit_world, hitWorldAux, hs]
    exact hitWorldAux_acc r t_min rest ((h.t : WithTop ℝ)) h

/-- Full characterization of hit_world: it returns none exactly when every
sphere misses the interval, and a returned record lies strictly inside the
interval, is globally minimal in t among the accepted per-sphere hits on
the full interval, and comes from the first sphere attaining that minimum. -/
theorem hit_world_spec (r : Ray) (t_min : ℝ) :
    ∀ (world : List Sphere) (t_max : WithTop ℝ),
      (hit_world world r t_min t_max = none ↔
        ∀ s ∈ world, s.hit r t_min t_max = none) ∧
      (∀ hr, hit_world world r t_min t_max = some hr →
        t_min < hr.t ∧ (hr.t : WithTop ℝ) < t_max ∧
        (∀ s ∈ world, ∀ hr2, s.hit r t_min t_max = some hr2 → hr.t ≤ hr2.t) ∧
        ∃ i, ∃ hi : i < world.length,
          (world.get ⟨i, hi⟩).hit r t_min t_max = some hr ∧
          ∀ j (hj : j < i) hr2,
            (world.get ⟨j, Nat.lt_trans hj hi⟩).hit r t_min t_max = some hr2 →
            hr.t < hr2.t) := by
  intro world
  induction world with
  | nil =>
    intro t_max
    refine ⟨by simp [hit_world, hitWorldAux], ?_⟩
    intro hr h
    simp [hit_world, hitWorldAux] at h
  | cons s rest ih =>
    intro t_max
    cases hs : s.hit r t_min t_max with
    | none =>
      have hcons : hit_world (s :: rest) r t_min t_max =
          hit_world rest r t_min t_max := by
        rw [hit_world_cons, hs]
      constructor
      · rw [hcons, (ih t_max).1]
        constructor
        · intro hall s2 hmem
          rcases List.mem_cons.mp hmem with rfl | hmem2
          · exact hs
          · exact hall s2 hmem2
        · intro hall s2 hmem
          exact hall s2 (List.mem_cons_of_mem s hmem)
      · intro hr h
        rw [hcons] at h
        obtain ⟨ht1, ht2, hmin, i, hi, hhit, hstr⟩ := (ih t_max).2 hr h
        refine ⟨ht1, ht2, ?_, ?_⟩
        · intro s2 hmem hr2 h2
          rcases List.mem_cons.mp hmem with rfl | hmem2
          · rw [hs] at h2
            exact absurd h2 (by simp)
          · exact hmin s2 hmem2 hr2 h2
        · refine ⟨i + 1, Nat.succ_lt_succ hi, hhit, ?_⟩
          intro j hj hr2 h2
          cases j with
          | zero =>
            have h20 : s.hit r t_min t_max = some hr2 := h2
            rw [hs] at h20
            exact absurd h20 (by simp)
          | succ j =>
            exact hstr j (Nat.lt_of_succ_lt_succ hj) hr2 h2
    | some h =>
      have hht := Sphere.hit_t hs
      have hle : (h.t : WithTop ℝ) ≤ t_max := le_of_lt hht.2
      cases hrest : hit_world rest r t_min ((h.t : WithTop ℝ)) with
      | none =>
        have hcons : hit_world (s :: rest) r t_min t_max = some h := by
          rw [hit_world_cons, hs]
          show (match hit_world rest r t_min ((h.t : WithTop ℝ)) with
                | none => some h
                | some hx => some hx) = _
          rw [hrest]
        have hallnone : ∀ s2 ∈ rest, s2.hit r t_min ((h.t : WithTop ℝ)) = none :=
          ((ih ((h.t : WithTop ℝ))).1).mp hrest
        constructor
        · rw [hcons]
          constructor
          · intro hfalse
            exact absurd hfalse (by simp)
          · intro hall
            have hd := hall s (List.mem_cons_self s rest)
            rw [hs] at hd
            exact absurd hd (by simp)
        · intro hr hEq
          rw [hcons] at hEq
          have hrEq : h = hr := Option.some.inj hEq
          subst hrEq
          refine ⟨hht.1, hht.2, ?_, ?_⟩
          · intro s2 hmem hr2 h2
            rcases List.mem_cons.mp hmem with rfl | hmem2
            · rw [hs] at h2
              rw [← Option.some.inj h2]
            · by_cases hc : (hr2.t : WithTop ℝ) < (h.t : WithTop ℝ)
              · have hsh := (Sphere.hit_shrink hle h2).1 hc
                rw [hallnone s2 hmem2] at hsh
                exact absurd hsh (by simp)
              · exact WithTop.coe_le_coe.mp (not_lt.mp hc)
          · refine ⟨0, Nat.succ_pos rest.length, hs, ?_⟩
            intro j hj hr2 h2
            exact absurd hj (Nat.not_lt_zero j)
      | some hbest =>
        have hcons : hit_world (s :: rest) r t_min t_max = some hbest := by
          rw [hit_world_cons, hs]
          show (match hit_world rest r t_min ((h.t : WithTop ℝ)) with
                | none => some h
                | some hx => some hx) = _
          rw [hrest]
        obtain ⟨hb1, hb2, hbmin, i0, hi0, hbhit, hbstr⟩ :=
          (ih ((h.t : WithTop ℝ))).2 hbest hrest
        have hblt : hbest.t < h.t := WithTop.coe_lt_coe.mp hb2
        constructor
        · rw [hcons]
          constructor
          · intro hfalse
            exact absurd hfalse (by simp)
          · intro hall
            have hd := hall s (List.mem_cons_self s rest)
            rw [hs] at hd
            exact absurd hd (by simp)
        · intro hr hEq
          rw [hcons] at hEq
          have hrEq : hbest = hr := Option.some.inj hEq
          subst hrEq
          refine ⟨hb1, lt_trans hb2 hht.2, ?_, ?_⟩
          · intro s2 hmem hr2 h2
            rcases List.mem_cons.mp hmem with rfl | hmem2
            · rw [hs] at h2
              rw [← Option.some.inj h2]
              exact le_of_lt hblt
            · by_cases hc : (hr2.t : WithTop ℝ) < (h.t : WithTop ℝ)
              · exact hbmin s2 hmem2 hr2 ((Sphere.hit_shrink hle h2).1 hc)
              · exact le_trans (le_of_lt hblt) (WithTop.coe_le_coe.mp (not_lt.mp hc))
          · refine ⟨i0 + 1, Nat.succ_lt_succ hi0, Sphere.hit_grow hle hbhit, ?_⟩
            intro j hj hr2 h2
            cases j with
            | zero =>
              have h20 : s.hit r t_min t_max = some hr2 := h2
              rw [hs] at h20
              rw [← Option.some.inj h20]
              exact hblt
            | succ j =>
              have h2j : (rest.get ⟨j, Nat.lt_trans (Nat.lt_of_succ_lt_succ hj) hi0⟩).hit
                  r t_min t_max = some hr2 := h2
              by_cases hc : (hr2.t : WithTop ℝ) < (h.t : WithTop ℝ)
              · exact hbstr j (Nat.lt_of_succ_lt_succ hj) hr2
                  ((Sphere.hit_shrink hle h2j).1 hc)
              · exact lt_of_lt_of_le hblt (WithTop.coe_le_coe.mp (not_lt.mp hc))

/-- Claim C2: a record returned by hit_world lies strictly inside the search
interval and is the global nearest accepted hit: no sphere of the scene has
an accepted intersection with a strictly smaller parameter on the interval,
the record is produced by the first sphere (in iteration order) attaining
the minimum, and hit_world returns none exactly when no sphere has an
accepted intersection in the interval. -/
theorem hit_world_nearest (world : List Sphere) (r : Ray) (t_min : ℝ)
    (t_max : WithTop ℝ) (hb : (t_min : WithTop ℝ) < t_max) :
    (∀ hr, hit_world world r t_min t_max = some hr →
      t_min < hr.t ∧ (hr.t : WithTop ℝ) < t_max ∧
      (∀ s ∈ world, ∀ hr2, s.hit r t_min t_max = some hr2 → hr.t ≤ hr2.t) ∧
      ∃ i, ∃ hi : i < world.length,
        (world.get ⟨i, hi⟩).hit r t_min t_max = some hr ∧
        ∀ j (hj : j < i) hr2,
          (world.get ⟨j, Nat.lt_trans hj hi⟩).hit r t_min t_max = some hr2 →
          hr.t < hr2.t) ∧
    (hit_world world r t_min t_max = none ↔
      ∀ s ∈ world, s.hit r t_min t_max = none) :=
  ⟨(hit_world_spec r t_min world t_max).2, (hit_world_spec r t_min world t_max).1⟩

/-- Witness for hit_world_nearest on the one-sphere scene with the test ray
and the interval from 0 to 10. -/
theorem hit_world_nearest_witness :
    ((0 : ℝ) : WithTop ℝ) < ((10 : ℝ) : WithTop ℝ) ∧
    ((∀ hr, hit_world [sphereEx] rayEx 0 ((10 : ℝ) : WithTop ℝ) = some hr →
      0 < hr.t ∧ (hr.t : WithTop ℝ) < ((10 : ℝ) : WithTop ℝ) ∧
      (∀ s ∈ [sphereEx], ∀ hr2,
        s.hit rayEx 0 ((10 : ℝ) : WithTop ℝ) = some hr2 → hr.t ≤ hr2.t) ∧
      ∃ i, ∃ hi : i < [sphereEx].length,
        ([sphereEx].get ⟨i, hi⟩).hit rayEx 0 ((10 : ℝ) : WithTop ℝ) = some hr ∧
        ∀ j (hj : j < i) hr2,
          ([sphereEx].get ⟨j, Nat.lt_trans hj hi⟩).hit rayEx 0
            ((10 : ℝ) : WithTop ℝ) = some hr2 → hr.t < hr2.t) ∧
    (hit_world [sphereEx] rayEx 0 ((10 : ℝ) : WithTop ℝ) = none ↔
      ∀ s ∈ [sphereEx], s.hit rayEx 0 ((10 : ℝ) : WithTop ℝ) = none)) :=
  ⟨WithTop.coe_lt_coe.mpr (by norm_num),
   hit_world_nearest [sphereEx] rayEx 0 ((10 : ℝ) : WithTop ℝ)
     (WithTop.coe_lt_coe.mpr (by norm_num))⟩

theorem Vector.length_squared_pos (d : Vector) (hd : d ≠ Vector.ORIGIN) :
    0 < d.length_squared := by
  rcases lt_or_eq_of_le (Vector.length_squared_nonneg d) with h | h
  · exact h
  · exfalso
    apply hd
    have h0 : d.x * d.x + d.y * d.y + d.z * d.z = 0 := by
      have h1 := h.symm
      rwa [Vector.length_squared] at h1
    have hxx : d.x * d.x = 0 :=
      le_antisymm (by nlinarith [mul_self_nonneg d.y, mul_self_nonneg d.z])
        (mul_self_nonneg d.x)
    have hyy : d.y * d.y = 0 :=
      le_antisymm (by nlinarith [mul_self_nonneg d.x, mul_self_nonneg d.z])
        (mul_self_nonneg d.y)
    have hzz : d.z * d.z = 0 :=
      le_antisymm (by nlinarith [mul_self_nonneg d.x, mul_self_nonneg d.y])
        (mul_self_nonneg d.z)
    have heta : d = ⟨d.x, d.y, d.z⟩ := rfl
    rw [heta, mul_self_eq_zero.mp hxx, mul_self_eq_zero.mp hyy,
      mul_self_eq_zero.mp hzz]
    rfl

theorem Vector.normalize_y_bounds (d : Vector) (hd : d ≠ Vector.ORIGIN) :
    -1 ≤ d.normalize.y ∧ d.normalize.y ≤ 1 := by
  have hpos : 0 < d.length_squared := Vector.length_squared_pos d hd
  have hlen : 0 < d.length := Real.sqrt_pos.mpr hpos
  have hy2 : d.y * d.y ≤ d.length_squared := by
    rw [Vector.length_squared]
    nlinarith [mul_self_nonneg d.x, mul_self_nonneg d.z]
  have hyabs : |d.y| ≤ d.length := by
    rw [Vector.length, ← Real.sqrt_mul_self_eq_abs d.y]
    exact Real.sqrt_le_sqrt hy2
  have habs : |d.normalize.y| ≤ 1 := by
    rw [show d.normalize.y = d.y / d.length from rfl, abs_div, abs_of_pos hlen]
    exact (div_le_one hlen).mpr hyabs
  exact abs_le.mp habs

/-- Channelwise bound for the background blend: with both operand channels
in byte range and a blend parameter in the unit interval, the computed
channel (truncated scaling of each endpoint followed by the saturating
add) is at most the larger endpoint channel and at least the smaller one
minus one (each truncation loses strictly less than one). -/
theorem lerp_channel_bounds (a b : ℕ) (ha : a ≤ 255) (hb : b ≤ 255) (t : ℝ)
    (ht0 : 0 ≤ t) (ht1 : t ≤ 1) :
    min a b - 1 ≤ add_no_overflow (f64_as_u8 (clamp ((1 - t) * (a : ℝ)) 0 255))
        (f64_as_u8 (clamp (t * (b : ℝ)) 0 255)) ∧
    add_no_overflow (f64_as_u8 (clamp ((1 - t) * (a : ℝ)) 0 255))
        (f64_as_u8 (clamp (t * (b : ℝ)) 0 255)) ≤ max a b := by
  have h1t0 : (0 : ℝ) ≤ 1 - t := by linarith
  have haR : (a : ℝ) ≤ 255 := by exact_mod_cast ha
  have hbR : (b : ℝ) ≤ 255 := by exact_mod_cast hb
  have hA0 : (0 : ℝ) ≤ (1 - t) * (a : ℝ) := mul_nonneg h1t0 (Nat.cast_nonneg a)
  have hB0 : (0 : ℝ) ≤ t * (b : ℝ) := mul_nonneg ht0 (Nat.cast_nonneg b)
  have hAa : (1 - t) * (a : ℝ) ≤ (a : ℝ) := by nlinarith [Nat.cast_nonneg (α := ℝ) a]
  have hBb : t * (b : ℝ) ≤ (b : ℝ) := by nlinarith [Nat.cast_nonneg (α := ℝ) b]
  have hA255 : (1 - t) * (a : ℝ) ≤ 255 := le_trans hAa haR
  have hB255 : t * (b : ℝ) ≤ 255 := le_trans hBb hbR
  have hclA : clamp ((1 - t) * (a : ℝ)) 0 255 = (1 - t) * (a : ℝ) := by
    unfold clamp
    rw [if_neg (not_lt.mpr hA0), if_neg (not_lt.mpr hA255)]
  have hclB : clamp (t * (b : ℝ)) 0 255 = t * (b : ℝ) := by
    unfold clamp
    rw [if_neg (not_lt.mpr hB0), if_neg (not_lt.mpr hB255)]
  have hfA0 : 0 ≤ ⌊(1 - t) * (a : ℝ)⌋ := Int.floor_nonneg.mpr hA0
  have hfB0 : 0 ≤ ⌊t * (b : ℝ)⌋ := Int.floor_nonneg.mpr hB0
  have hfA255 : ⌊(1 - t) * (a : ℝ)⌋ ≤ 255 := by
    calc ⌊(1 - t) * (a : ℝ)⌋ ≤ ⌊(255 : ℝ)⌋ := Int.floor_le_floor hA255
    _ = 255 := by norm_num
  have hfB255 : ⌊t * (b : ℝ)⌋ ≤ 255 := by
    calc ⌊t * (b : ℝ)⌋ ≤ ⌊(255 : ℝ)⌋ := Int.floor_le_floor hB255
    _ = 255 := by norm_num
  have hxA : f64_as_u8 (clamp ((1 - t) * (a : ℝ)) 0 255) = (⌊(1 - t) * (a : ℝ)⌋).toNat := by
    rw [hclA, f64_as_u8]
    exact min_eq_right (by omega)
  have hxB : f64_as_u8 (clamp (t * (b : ℝ)) 0 255) = (⌊t * (b : ℝ)⌋).toNat := by
    rw [hclB, f64_as_u8]
    exact min_eq_right (by omega)
  rw [hxA, hxB, add_no_overflow_eq]
  have hABmax : (1 - t) * (a : ℝ) + t * (b : ℝ) ≤ max (a : ℝ) (b : ℝ) := by
    have h1 : (a : ℝ) ≤ max (a : ℝ) (b : ℝ) := le_max_left _ _
    have h2 : (b : ℝ) ≤ max (a : ℝ) (b : ℝ) := le_max_right _ _
    nlinarith
  have hABmin : min (a : ℝ) (b : ℝ) ≤ (1 - t) * (a : ℝ) + t * (b : ℝ) := by
    have h1 : min (a : ℝ) (b : ℝ) ≤ (a : ℝ) := min_le_left _ _
    have h2 : min (a : ℝ) (b : ℝ) ≤ (b : ℝ) := min_le_right _ _
    nlinarith
  have hUBz : (⌊(1 - t) * (a : ℝ)⌋ + ⌊t * (b : ℝ)⌋ : ℤ) ≤ ((max a b : ℕ) : ℤ) := by
    have hfl : (⌊(1 - t) * (a : ℝ)⌋ + ⌊t * (b : ℝ)⌋ : ℤ) ≤
        ⌊(1 - t) * (a : ℝ) + t * (b : ℝ)⌋ := by
      apply Int.le_floor.mpr
      push_cast
      have hf1 := Int.floor_le ((1 - t) * (a : ℝ))
      have hf2 := Int.floor_le (t * (b : ℝ))
      linarith
    refine le_trans hfl ?_
    have hmax : ((max a b : ℕ) : ℝ) = max (a : ℝ) (b : ℝ) := by
      push_cast
      rfl
    calc ⌊(1 - t) * (a : ℝ) + t * (b : ℝ)⌋ ≤ ⌊((max a b : ℕ) : ℝ)⌋ :=
          Int.floor_le_floor (by rw [hmax]; exact hABmax)
    _ = ((max a b : ℕ) : ℤ) := Int.floor_natCast _
  have hLBz : ((min a b : ℕ) : ℤ) < ⌊(1 - t) * (a : ℝ)⌋ + ⌊t * (b : ℝ)⌋ + 2 := by
    have hf1 := Int.lt_floor_add_one ((1 - t) * (a : ℝ))
    have hf2 := Int.lt_floor_add_one (t * (b : ℝ))
    have hmin : ((min a b : ℕ) : ℝ) = min (a : ℝ) (b : ℝ) := by
      push_cast
      rfl
    have hreal : ((min a b : ℕ) : ℝ) <
        ((⌊(1 - t) * (a : ℝ)⌋ + ⌊t * (b : ℝ)⌋ + 2 : ℤ) : ℝ) := by
      push_cast
      rw [hmin] at *
      linarith [hABmin]
    exact_mod_cast hreal
  have hUB : (⌊(1 - t) * (a : ℝ)⌋).toNat + (⌊t * (b : ℝ)⌋).toNat ≤ max a b := by omega
  have hLB : min a b < (⌊(1 - t) * (a : ℝ)⌋).toNat + (⌊t * (b : ℝ)⌋).toNat + 2 := by omega
  omega

/-- The no-hit branch of ray_color: with positive remaining depth and no
sphere hit, the result is the background blend of white and sky blue. -/
theorem ray_color_miss (samp : ℕ → Vector → Vector) (r : Ray)
    (world : List Sphere) (d : ℕ)
    (hmiss : hit_world world r 0.001 ⊤ = none) :
    ray_color samp r world (d + 1) =
      Color.lerp Color.WHITE Color.BACKGROUND
        (0.5 * ((r.direction.normalize).y + 1)) := by
  simp only [ray_color, hmiss]

/-- Claim C5 (amended): for every ray with nonzero direction that hits no
sphere (and positive remaining depth), the blend parameter lies in the unit
interval, so the out-of-range panic branch of Color::lerp is unreachable
and a color is returned; each channel of that color is at most the larger
of the two endpoint channels, and at least the smaller one minus one (the
per-endpoint truncation to bytes can undershoot the exact convex
combination by up to one, so the result is not always between the
endpoints). -/
theorem ray_color_miss_bounds (samp : ℕ → Vector → Vector)
    (world : List Sphere) (r : Ray) (depth : ℕ)
    (hd : r.direction ≠ Vector.ORIGIN)
    (hmiss : hit_world world r 0.001 ⊤ = none) :
    (0 ≤ 0.5 * ((r.direction.normalize).y + 1) ∧
     0.5 * ((r.direction.normalize).y + 1) ≤ 1) ∧
    ∃ c, ray_color samp r world (depth + 1) = some c ∧
      min Color.WHITE.r Color.BACKGROUND.r - 1 ≤ c.r ∧
      c.r ≤ max Color.WHITE.r Color.BACKGROUND.r ∧
      min Color.WHITE.g Color.BACKGROUND.g - 1 ≤ c.g ∧
      c.g ≤ max Color.WHITE.g Color.BACKGROUND.g ∧
      min Color.WHITE.b Color.BACKGROUND.b - 1 ≤ c.b ∧
      c.b ≤ max Color.WHITE.b Color.BACKGROUND.b := by
  obtain ⟨hy1, hy2⟩ := Vector.normalize_y_bounds r.direction hd
  have ht0 : (0 : ℝ) ≤ 0.5 * ((r.direction.normalize).y + 1) := by linarith
  have ht1 : 0.5 * ((r.direction.normalize).y + 1) ≤ 1 := by linarith
  refine ⟨⟨ht0, ht1⟩, ?_⟩
  rw [ray_color_miss samp r world depth hmiss, Color.lerp,
    if_neg (by push_neg; exact ⟨ht0, ht1⟩)]
  refine ⟨_, rfl, ?_, ?_, ?_, ?_, ?_, ?_⟩
  · exact (lerp_channel_bounds Color.WHITE.r Color.BACKGROUND.r (by decide)
      (by decide) _ ht0 ht1).1
  · exact (lerp_channel_bounds Color.WHITE.r Color.BACKGROUND.r (by decide)
      (by decide) _ ht0 ht1).2
  · exact (lerp_channel_bounds Color.WHITE.g Color.BACKGROUND.g (by decide)
      (by decide) _ ht0 ht1).1
  · exact (lerp_channel_bounds Color.WHITE.g Color.BACKGROUND.g (by decide)
      (by decide) _ ht0 ht1).2
  · exact (lerp_channel_bounds Color.WHITE.b Color.BACKGROUND.b (by decide)
      (by decide) _ ht0 ht1).1
  · exact (lerp_channel_bounds Color.WHITE.b Color.BACKGROUND.b (by decide)
      (by decide) _ ht0 ht1).2

/-- Witness for ray_color_miss_bounds: the horizontal ray in the empty
scene, depth 1. -/
theorem ray_color_miss_bounds_witness :
    rayHoriz.direction ≠ Vector.ORIGIN ∧
    hit_world [] rayHoriz 0.001 ⊤ = none ∧
    ((0 ≤ 0.5 * ((rayHoriz.direction.normalize).y + 1) ∧
      0.5 * ((rayHoriz.direction.normalize).y + 1) ≤ 1) ∧
     ∃ c, ray_color (fun _ _ => Vector.ORIGIN) rayHoriz [] (0 + 1) = some c ∧
       min Color.WHITE.r Color.BACKGROUND.r - 1 ≤ c.r ∧
       c.r ≤ max Color.WHITE.r Color.BACKGROUND.r ∧
       min Color.WHITE.g Color.BACKGROUND.g - 1 ≤ c.g ∧
       c.g ≤ max Color.WHITE.g Color.BACKGROUND.g ∧
       min Color.WHITE.b Color.BACKGROUND.b - 1 ≤ c.b ∧
       c.b ≤ max Color.WHITE.b Color.BACKGROUND.b) :=
  ⟨fun h => one_ne_zero (congrArg Vector.x h), rfl,
   ray_color_miss_bounds (fun _ _ => Vector.ORIGIN) [] rayHoriz 0
     (fun h => one_ne_zero (congrArg Vector.x h)) rfl⟩

/-- Claim C5 counterexample: for the horizontal ray in the empty scene the
blend parameter is one half and the returned color is (190, 216, 254); its
blue channel 254 is strictly below both endpoint blue channels (255 and
255), so the result is not channelwise between the endpoints. -/
theorem ray_color_background_channel_below_min :
    ray_color (fun _ _ => Vector.ORIGIN) rayHoriz [] 1 = some ⟨190, 216, 254⟩ ∧
    (254 : ℕ) < min Color.WHITE.b Color.BACKGROUND.b := by
  constructor
  · have hmiss : hit_world [] rayHoriz 0.001 ⊤ = none := rfl
    rw [show (1 : ℕ) = 0 + 1 from rfl, ray_color_miss _ _ _ 0 hmiss]
    have h1 : rayHoriz.direction.length = 1 := by
      rw [Vector.length, Vector.length_squared]
      show Real.sqrt ((1 : ℝ) * 1 + 0 * 0 + 0 * 0) = 1
      norm_num [Real.sqrt_one]
    have hn : rayHoriz.direction.normalize = ⟨1, 0, 0⟩ := by
      rw [Vector.normalize, h1, Vector.divScalar]
      show (⟨(1 : ℝ) / 1, 0 / 1, 0 / 1⟩ : Vector) = ⟨1, 0, 0⟩
      norm_num
    rw [hn]
    show Color.lerp Color.WHITE Color.BACKGROUND (0.5 * ((0 : ℝ) + 1)) =
      some ⟨190, 216, 254⟩
    rw [Color.lerp, if_neg (by norm_num)]
    have hw : Color.scalarMul (1 - 0.5 * ((0 : ℝ) + 1)) Color.WHITE =
        ⟨127, 127, 127⟩ := by
      have hch : f64_as_u8 (clamp ((1 - 0.5 * ((0 : ℝ) + 1)) * ((255 : ℕ) : ℝ))
          0 255) = 127 := by
        rw [show ((1 : ℝ) - 0.5 * (0 + 1)) * ((255 : ℕ) : ℝ) = 127.5 from by
          push_cast
          norm_num]
        rw [clamp, f64_as_u8]
        norm_num
        rfl
      show (⟨f64_as_u8 (clamp ((1 - 0.5 * ((0 : ℝ) + 1)) * ((255 : ℕ) : ℝ)) 0 255),
            f64_as_u8 (clamp ((1 - 0.5 * ((0 : ℝ) + 1)) * ((255 : ℕ) : ℝ)) 0 255),
            f64_as_u8 (clamp ((1 - 0.5 * ((0 : ℝ) + 1)) * ((255 : ℕ) : ℝ)) 0 255)⟩ :
          Color) = ⟨127, 127, 127⟩
      rw [hch]
    have hbg : Color.scalarMul (0.5 * ((0 : ℝ) + 1)) Color.BACKGROUND =
        ⟨63, 89, 127⟩ := by
      have hchr : f64_as_u8 (clamp ((0.5 * ((0 : ℝ) + 1)) * ((127 : ℕ) : ℝ))
          0 255) = 63 := by
        rw [show ((0.5 : ℝ) * (0 + 1)) * ((127 : ℕ) : ℝ) = 63.5 from by
          push_cast
          norm_num]
        rw [clamp, f64_as_u8]
        norm_num
        rfl
      have hchg : f64_as_u8 (clamp ((0.5 * ((0 : ℝ) + 1)) * ((178 : ℕ) : ℝ))
          0 255) = 89 := by
        rw [show ((0.5 : ℝ) * (0 + 1)) * ((178 : ℕ) : ℝ) = 89 from by
          push_cast
          norm_num]
        rw [clamp, f64_as_u8]
        norm_num
        rfl
      have hchb : f64_as_u8 (clamp ((0.5 * ((0 : ℝ) + 1)) * ((255 : ℕ) : ℝ))
          0 255) = 127 := by
        rw [show ((0.5 : ℝ) * (0 + 1)) * ((255 : ℕ) : ℝ) = 127.5 from by
          push_cast
          norm_num]
        rw [clamp, f64_as_u8]
        norm_num
        rfl
      show (⟨f64_as_u8 (clamp ((0.5 * ((0 : ℝ) + 1)) * ((127 : ℕ) : ℝ)) 0 255),
            f64_as_u8 (clamp ((0.5 * ((0 : ℝ) + 1)) * ((178 : ℕ) : ℝ)) 0 255),
            f64_as_u8 (clamp ((0.5 * ((0 : ℝ) + 1)) * ((255 : ℕ) : ℝ)) 0 255)⟩ :
          Color) = ⟨63, 89, 127⟩
      rw [hchr, hchg, hchb]
    show some (Color.add (Color.scalarMul (1 - 0.5 * ((0 : ℝ) + 1)) Color.WHITE)
      (Color.scalarMul (0.5 * ((0 : ℝ) + 1)) Color.BACKGROUND)) =
      some ⟨190, 216, 254⟩
    rw [hw, hbg]
    decide
  · decide

end Raytracer
